import Mathlib

/-!
Verification development for the flavour-fiesta-api conversation core
(`index.ts`: `postNeo4jQuestion`, `createThread`, `getThreadMessages`,
`saveMessages`, `updateThreadTimestamp`, `executeToolCall`,
`executeCustomQuery`, `recordToString`).

Shallow embedding conventions:
* Neo4j result records are association lists from column name to an
  optional rendered value (`none` models a null column).  The SDK keeps
  `Keys` and `Values` as parallel arrays of equal length; the pair list
  captures exactly that.
* The database reached through `neo4j.executeQuery` is modelled as an
  explicit `DBState` (threads, messages, clock).  Every query executes at
  the current clock instant and advances the clock; all `datetime()`
  evaluations inside one Cypher statement yield that single instant
  (Neo4j's `datetime()` is the statement/transaction time, which is why the
  user and assistant message created by the one `CREATE` statement of
  `saveMessages` carry the same timestamp).
* The agent loop `llmWithTools` lives in `tool-helper.ts`, which is not
  part of the sources at hand; it is modelled from the spec (§4.4) where
  marked below.  The language model itself is an external collaborator and
  is passed in as a function.
-/

/-- One result record of a Cypher query: parallel `Keys`/`Values` arrays,
rendered as an association list.  A `none` value is a null column. -/
abbrev Rec := List (String × Option String)

/-- `Array.join(", ")` of AssemblyScript: empty array gives `""`, otherwise
the elements separated by `", "`. -/
def joinComma : List String → String
  | [] => ""
  | [x] => x
  | x :: y :: xs => x ++ ", " ++ joinComma (y :: xs)

/-- Embedding of `recordToString` (index.ts): push `key: value` for every
non-null column, then join with `", "`.  (The defensive
`!record || !record.Keys || !record.Values` guard of the source cannot fire
in the embedding, where a record is always a well-formed pair list.) -/
def recordToString (record : Rec) : String :=
  joinComma (record.filterMap fun kv =>
    match kv.2 with
    | some v => some (kv.1 ++ ": " ++ v)
    | none => none)

/-- Embedding of `executeCustomQuery` (index.ts).  The reply of
`neo4j.executeQuery` is passed explicitly: `none` models a failed query
(falsy `response`), `some records` a successful one.  The source
accumulates `result += current + "\n"` for every record whose rendering is
non-empty (truthiness test `if (current)`), and finally returns
`result || "Query returned no results."`. -/
def executeCustomQuery (string_args : String) (response : Option (List Rec)) : String :=
  match response with
  | none => "Error executing query."
  | some records =>
    let result := records.foldl
      (fun acc record =>
        let current := recordToString record
        if current = "" then acc else acc ++ current ++ "\n")
      ""
    if result = "" then "Query returned no results." else result

/-- The `function` payload of a model-issued tool call (`name`,
`arguments`). -/
structure ToolCallFunction where
  name : String
  arguments : String
deriving DecidableEq, Repr

/-- A model-issued tool call, as consumed by `executeToolCall`. -/
structure ToolCall where
  function : ToolCallFunction
deriving DecidableEq, Repr

/-- Embedding of `executeToolCall` (index.ts): dispatch on the tool name;
only `"execute_query"` is registered, every other name yields `""`.  The
store reply for the query tool is passed through explicitly. -/
def executeToolCall (toolCall : ToolCall) (response : Option (List Rec)) : String :=
  if toolCall.function.name = "execute_query" then
    executeCustomQuery toolCall.function.arguments response
  else
    ""

/-- A tool declaration as registered with the model. Modelled from the
spec: the `StringParam`/`ObjectParam` helpers of `params.ts` are not among
the sources, so the JSON parameter schema is summarized as plain text
(one required string property `query`); nothing below inspects it. -/
structure Tool where
  name : String
  description : String
  parameters : String
deriving DecidableEq, Repr

/-- Embedding of `tool_execute_query` (index.ts). -/
def tool_execute_query : Tool :=
  { name := "execute_query"
    description := "Execute a Cypher query against the Neo4j database and return the results."
    parameters := "object with one required string property: query" }

/-- One chat message as seen by the model (system / user / assistant /
tool role plus content). -/
structure ChatMsg where
  role : String
  content : String
deriving DecidableEq, Repr

/-- What one model call returns: final answer text, or a batch of tool
calls. -/
inductive ModelOut where
  | finalText (text : String)
  | toolCalls (calls : List ToolCall)

/-- Result type of the agent loop (`ResponseWithLogs` of
`tool-helper.ts`). -/
structure ResponseWithLogs where
  response : String
  logs : List String
deriving DecidableEq, Repr

/-- The log line the loop appends when the iteration ceiling forces
termination. -/
def forcedStopLog : String := "Forced termination: loop limit reached"

/-- Modelled from the spec: the bounded model/tool loop of
`llmWithTools` (`tool-helper.ts`, not among the sources) per §4.4 of the
spec.  `fuel` is the remaining iteration budget, `msgs` the in-memory
message sequence, `logs` the RunLog so far, `calls` the number of model
calls made so far.  Each round calls the model once; final text terminates
the loop, tool calls are executed through the callback and their results
appended to the in-memory sequence only.  When the ceiling is reached the
loop returns the best-effort text (empty here) and logs the forced stop.
The third component counts model calls, for stating the termination
bound. -/
def llmWithToolsAux (llm : List ChatMsg → ModelOut) (toolCallback : ToolCall → String) :
    Nat → List ChatMsg → List String → Nat → String × List String × Nat
  | 0, _msgs, logs, calls => ("", logs ++ [forcedStopLog], calls)
  | fuel + 1, msgs, logs, calls =>
    match llm msgs with
    | ModelOut.finalText t => (t, logs, calls + 1)
    | ModelOut.toolCalls cs =>
      let toolMsgs := cs.map fun c => ChatMsg.mk "tool" (toolCallback c)
      let newLogs := logs ++ cs.map fun c => "Calling tool: " ++ c.function.name
      llmWithToolsAux llm toolCallback fuel (msgs ++ toolMsgs) newLogs (calls + 1)

/-- Modelled from the spec: `llmWithTools` (`tool-helper.ts`, not among
the sources).  Builds system prompt + prior history + new user question
and runs the bounded loop. The registered tool list only matters to the
model itself, which is abstract here. -/
def llmWithTools (llm : List ChatMsg → ModelOut) (_tools : List Tool)
    (prompt question : String) (toolCallback : ToolCall → String)
    (limit : Nat) (previousMessages : List ChatMsg) : ResponseWithLogs :=
  let initial := ChatMsg.mk "system" prompt :: previousMessages ++ [ChatMsg.mk "user" question]
  let r := llmWithToolsAux llm toolCallback limit initial [] 0
  { response := r.1, logs := r.2.1 }

/-- The hard iteration ceiling passed to the loop (`loop_limit: u8 = 10`
in `postNeo4jQuestion`). -/
def loop_limit : Nat := 10

/-- The system prompt constant of index.ts (its lengthy schema text is
irrelevant to every property below and elided). -/
def DEFAULT_PROMPT : String :=
  "You are a Chat Assistant answering questions about recipes."

/-- A persisted `Message` node: owning thread, `role`, `content`,
`datetime` stamp (instants are naturals; only their order matters). -/
structure DBMessage where
  threadId : String
  role : String
  content : String
  datetime : Nat
deriving DecidableEq, Repr

/-- A persisted `Thread` node (`id`, `created`, `last_updated`,
`status`). -/
structure Thread where
  id : String
  created : Nat
  last_updated : Nat
  status : String
deriving DecidableEq, Repr

/-- The chat database: thread nodes, message nodes, and the current
instant.  Every `neo4j.executeQuery` call runs at `clock` and advances it
by one; `datetime()` inside that statement evaluates to `clock`. -/
structure DBState where
  threads : List Thread
  messages : List DBMessage
  clock : Nat
deriving DecidableEq, Repr

/-- `MATCH (t:Thread {id: $thread_id})` has a result row iff such a thread
node exists. -/
def threadExists (s : DBState) (tid : String) : Bool :=
  s.threads.any fun t => t.id = tid

/-- The messages attached to a thread by `HAS_MESSAGE`, in creation
order. -/
def threadMsgs (s : DBState) (tid : String) : List DBMessage :=
  s.messages.filter fun m => m.threadId = tid

/-- `randomUuid()` modelled as an identifier fresh for the current
instant. -/
def freshId (s : DBState) : String :=
  "thread-" ++ Nat.repr s.clock

/-- Result type of `createThread` (class `ThreadResult`). -/
structure ThreadResult where
  success : Bool
  thread_id : String
  message : String
deriving DecidableEq, Repr

/-- Result type of `saveMessages` (class `SaveResult`). -/
structure SaveResult where
  success : Bool
  message : String
deriving DecidableEq, Repr

/-- Return type of `postNeo4jQuestion` (class `ThreadResponse`, i.e.
`ResponseWithLogs` plus `thread_id`). -/
structure ThreadResponse where
  response : String
  logs : List String
  thread_id : String
deriving DecidableEq, Repr

/-- Embedding of `createThread` (index.ts): one `CREATE ... RETURN`
statement producing a fresh `Thread` node with `created = last_updated =
datetime()` and status `active`.  The statement always returns its created
row, so the `Records.length === 0` failure branch of the source cannot
fire in the embedding (the caller's check is still translated
faithfully). -/
def createThread (s : DBState) : ThreadResult × DBState :=
  let tid := freshId s
  (⟨true, tid, "Thread created successfully"⟩,
   { s with
      threads := s.threads ++ [⟨tid, s.clock, s.clock, "active"⟩]
      clock := s.clock + 1 })

/-- The comparison used by `ORDER BY m.datetime`. -/
def byDatetime (m1 m2 : DBMessage) : Prop :=
  m1.datetime ≤ m2.datetime

instance : DecidableRel byDatetime := fun m1 m2 =>
  inferInstanceAs (Decidable (m1.datetime ≤ m2.datetime))

/-- The row sequence returned by the `ORDER BY m.datetime` query of
`getThreadMessages`: the thread's messages sorted by `datetime`
(insertion sort is a stable realization of the store's ordering). -/
def orderedThreadMsgs (s : DBState) (tid : String) : List DBMessage :=
  List.insertionSort byDatetime (threadMsgs s tid)

/-- Embedding of `getThreadMessages` (index.ts): read the thread's
messages ordered by `datetime` and rebuild chat messages; a row whose role
is `assistant` becomes an `AssistantMessage`, every other row a
`UserMessage`. -/
def getThreadMessages (s : DBState) (tid : String) : List ChatMsg × DBState :=
  ((orderedThreadMsgs s tid).map fun m =>
      if m.role = "assistant" then ChatMsg.mk "assistant" m.content
      else ChatMsg.mk "user" m.content,
   { s with clock := s.clock + 1 })

/-- Embedding of `saveMessages` (index.ts).  First query: validate that
the thread exists (on failure nothing is written).  Second query: one
`CREATE` statement making the user and the assistant message, both with
`datetime: datetime()` — the same statement instant — and attaching them
to the thread.  The `CREATE ... RETURN um.id, am.id` statement always
returns its row, so the source's final `Records.length === 0` check cannot
fire in the embedding. -/
def saveMessages (s : DBState) (thread_id question answer : String) :
    SaveResult × DBState :=
  if threadExists s thread_id then
    let s1 : DBState := { s with clock := s.clock + 1 }
    (⟨true, "Messages saved successfully"⟩,
     { s1 with
        messages := s1.messages ++
          [⟨thread_id, "user", question, s1.clock⟩,
           ⟨thread_id, "assistant", answer, s1.clock⟩]
        clock := s1.clock + 1 })
  else
    (⟨false, "Thread with id " ++ thread_id ++ " not found"⟩,
     { s with clock := s.clock + 1 })

/-- Embedding of `updateThreadTimestamp` (index.ts): `SET t.last_updated
= datetime()` on the matched thread. -/
def updateThreadTimestamp (s : DBState) (thread_id : String) : DBState :=
  { s with
     threads := s.threads.map fun t =>
       if t.id = thread_id then { t with last_updated := s.clock } else t
     clock := s.clock + 1 }

/-- The part of `postNeo4jQuestion` after the thread id has been
resolved: load history, run the loop, save the two new messages (early
return with the error log on failure), then set `response`/`logs` and
touch the thread timestamp. -/
def postNeo4jQuestionOnThread (question : String) (tid : String)
    (llm : List ChatMsg → ModelOut) (toolCallback : ToolCall → String)
    (s : DBState) : ThreadResponse × DBState :=
  let prev := getThreadMessages s tid
  let previousMessages := prev.1
  let response := llmWithTools llm [tool_execute_query] DEFAULT_PROMPT question
    toolCallback loop_limit previousMessages
  let save := saveMessages prev.2 tid question response.response
  if save.1.success then
    ({ response := response.response, logs := response.logs, thread_id := tid },
     updateThreadTimestamp save.2 tid)
  else
    ({ response := "", logs := ["Error: " ++ save.1.message], thread_id := tid },
     save.2)

/-- Embedding of `postNeo4jQuestion` (index.ts).  The language-model
client and the tool callback are the two external collaborators and are
passed in as functions; the tool callback's own queries go to the recipe
knowledge graph and do not touch the `Thread`/`Message` nodes.  A `none`
thread id makes a fresh thread (the dead failure branch of `createThread`
is translated faithfully); a provided id is used as-is and only validated
inside `saveMessages`. -/
def postNeo4jQuestion (question : String) (thread_id : Option String)
    (llm : List ChatMsg → ModelOut) (toolCallback : ToolCall → String)
    (s : DBState) : ThreadResponse × DBState :=
  match thread_id with
  | none =>
    let created := createThread s
    if created.1.success then
      postNeo4jQuestionOnThread question created.1.thread_id llm toolCallback created.2
    else
      ({ response := "", logs := ["Error: " ++ created.1.message], thread_id := "" },
       created.2)
  | some tid => postNeo4jQuestionOnThread question tid llm toolCallback s

/-- Does the two-character separator `[a, b]` occur (as adjacent
characters) in the list? -/
def hasPair (a b : Char) : List Char → Bool
  | c :: d :: rest => if c = a ∧ d = b then true else hasPair a b (d :: rest)
  | _ => false

/-- Split a character list on every occurrence of the two-character
separator `[a, b]` (leftmost-first, non-overlapping) — the list-level
meaning of re-splitting rendered text by `", "`. -/
def splitPair (a b : Char) : List Char → List (List Char)
  | [] => [[]]
  | [c] => [[c]]
  | c :: d :: rest =>
    if c = a ∧ d = b then [] :: splitPair a b rest
    else
      match splitPair a b (d :: rest) with
      | [] => [[c]]
      | s :: ss => (c :: s) :: ss

/-- Split a character list at the first occurrence of the two-character
separator `[a, b]`: the part before it and the part after it. -/
def breakPair (a b : Char) : List Char → Option (List Char × List Char)
  | [] => none
  | [_] => none
  | c :: d :: rest =>
    if c = a ∧ d = b then some ([], rest)
    else
      match breakPair a b (d :: rest) with
      | none => none
      | some (pre, post) => some (c :: pre, post)

/-- Parse one rendered column back into its key/value pair: split at the
first `": "`. -/
def parseEntry (e : List Char) : Option (String × String) :=
  match breakPair ':' ' ' e with
  | some (k, v) => some (String.mk k, String.mk v)
  | none => none

/-- Parse every rendered column of one line; fails if any column does not
parse. -/
def parseEntries : List (List Char) → Option (List (String × String))
  | [] => some []
  | e :: es =>
    match parseEntry e, parseEntries es with
    | some p, some ps => some (p :: ps)
    | _, _ => none

/-- Parse one rendered row line: split by the `", "` column separator,
then parse each column. -/
def parseLine (line : List Char) : Option (List (String × String)) :=
  parseEntries (splitPair ',' ' ' line)

/-- Parse every line of a rendered result. -/
def parseLines : List (List Char) → Option (List (List (String × String)))
  | [] => some []
  | l :: ls =>
    match parseLine l, parseLines ls with
    | some r, some rs => some (r :: rs)
    | _, _ => none

/-- The documented re-splitting convention: rows are separated by
newline, columns by `", "`, and a column reads `key: value`. -/
def parseRendered (s : String) : Option (List (List (String × String))) :=
  parseLines (s.data.splitOn '\n')

/-- The key/value pairs of a record whose columns are all non-null. -/
def recPairs (record : Rec) : List (String × String) :=
  record.map fun kv => (kv.1, kv.2.getD "")

/-- Rendering as the claim states it: one line per row, lines joined by
newline (no trailing newline), empty result set rendered as the
sentinel. -/
def renderAsTextSpec (records : List Rec) : String :=
  if records.isEmpty then "Query returned no results."
  else String.intercalate "\n" (records.map recordToString)

/-- Concatenation of a list of strings (for stating the corrected shape
of the query-tool output, where every row line is newline-terminated). -/
def concatStrings : List String → String
  | [] => ""
  | l :: ls => l ++ concatStrings ls

/-- The claim's strictness property: along a message sequence (in append
order) every message carries a strictly larger `datetime` than its
predecessor, so that the sort key alone orders them. -/
def strictStamps : List DBMessage → Bool
  | m1 :: m2 :: rest => m1.datetime < m2.datetime && strictStamps (m2 :: rest)
  | _ => true

/-- A message sequence made of completed exchanges: `user` then
`assistant`, repeatedly. -/
def isUserAssistantPairs : List DBMessage → Bool
  | [] => true
  | u :: a :: rest => u.role = "user" && a.role = "assistant" && isUserAssistantPairs rest
  | _ => false

/-- The same alternation over the chat messages handed to the model. -/
def isChatUserAssistantPairs : List ChatMsg → Bool
  | [] => true
  | u :: a :: rest => u.role = "user" && a.role = "assistant" && isChatUserAssistantPairs rest
  | _ => false

/-- The per-thread message-store shape maintained by successful
exchanges: user/assistant pairs, both halves of one exchange sharing one
`datetime`, and every later message stamped strictly after the pair. -/
inductive PairsShape (tid : String) : List DBMessage → Prop
  | nil : PairsShape tid []
  | cons (q a : String) (t : Nat) (rest : List DBMessage)
      (hrest : ∀ m ∈ rest, t < m.datetime)
      (hshape : PairsShape tid rest) :
      PairsShape tid (⟨tid, "user", q, t⟩ :: ⟨tid, "assistant", a, t⟩ :: rest)

/-- One `postNeo4jQuestion` exchange: the question together with the two
external collaborators of that invocation. -/
structure ExchangeStep where
  question : String
  llm : List ChatMsg → ModelOut
  toolCallback : ToolCall → String

/-- A sequence of `postNeo4jQuestion` invocations against one existing
thread. -/
def runExchanges (tid : String) (steps : List ExchangeStep) (s : DBState) : DBState :=
  steps.foldl
    (fun st step => (postNeo4jQuestion step.question (some tid) step.llm step.toolCallback st).2)
    s

/-- The `last_updated` timestamp of a thread, when the thread exists. -/
def threadLastUpdated (s : DBState) (tid : String) : Option Nat :=
  (s.threads.find? fun t => t.id = tid).map fun t => t.last_updated

/-- The per-thread store invariant maintained by successful exchanges:
the thread exists, its stored messages form user/assistant exchange
pairs (shape `PairsShape`), and all stamps lie strictly before the
current instant. -/
def C1Inv (tid : String) (s : DBState) : Prop :=
  threadExists s tid = true ∧
  PairsShape tid (threadMsgs s tid) ∧
  ∀ m ∈ threadMsgs s tid, m.datetime < s.clock

/-! ## General helper lemmas -/

theorem string_mk_data (s : String) : String.mk s.data = s := by
  cases s
  rfl

theorem string_ne_empty_of_data_ne (s : String) (h : s.data ≠ []) : s ≠ "" := by
  intro he
  exact h (by rw [he])

theorem threadExists_clock (s : DBState) (c : Nat) (tid : String) :
    threadExists { s with clock := c } tid = threadExists s tid := rfl

/-! ## Agent-loop lemmas (for C3) -/

theorem llmWithToolsAux_no_final (llm : List ChatMsg → ModelOut)
    (toolCallback : ToolCall → String)
    (h : ∀ msgs, ∃ cs, llm msgs = ModelOut.toolCalls cs) :
    ∀ (fuel : Nat) (msgs : List ChatMsg) (logs : List String) (calls : Nat),
      (llmWithToolsAux llm toolCallback fuel msgs logs calls).2.2 = calls + fuel ∧
      forcedStopLog ∈ (llmWithToolsAux llm toolCallback fuel msgs logs calls).2.1
  | 0, msgs, logs, calls => by
    simp [llmWithToolsAux]
  | fuel + 1, msgs, logs, calls => by
    obtain ⟨cs, hcs⟩ := h msgs
    rw [llmWithToolsAux, hcs]
    have ih := llmWithToolsAux_no_final llm toolCallback h fuel
      (msgs ++ cs.map fun c => ChatMsg.mk "tool" (toolCallback c))
      (logs ++ cs.map fun c => "Calling tool: " ++ c.function.name) (calls + 1)
    refine ⟨?_, ih.2⟩
    rw [ih.1]
    omega

/-! ## The save-failure path of `postNeo4jQuestion` (for C4, C5, C10) -/

theorem postNeo4jQuestionOnThread_unknown (question tid : String)
    (llm : List ChatMsg → ModelOut) (toolCallback : ToolCall → String)
    (s : DBState) (h : threadExists s tid = false) :
    postNeo4jQuestionOnThread question tid llm toolCallback s =
      ({ response := "", logs := ["Error: Thread with id " ++ tid ++ " not found"],
         thread_id := tid },
       { s with clock := s.clock + 2 }) := by
  have h1 : threadExists { s with clock := s.clock + 1 } tid = false := h
  have hlit : ("Error: " : String) ++ "Thread with id " = "Error: Thread with id " := rfl
  simp [postNeo4jQuestionOnThread, getThreadMessages, saveMessages, h1,
    ← String.append_assoc, hlit]

/-! ## C3 — forced termination at the iteration ceiling -/

/-- C3: if the model never returns final text (every call yields tool
calls), the loop started with the ceiling `postNeo4jQuestion` passes
(`loop_limit = 10`) makes exactly 10 model calls and then terminates,
returning a non-throwing result whose RunLog records the forced stop. -/
theorem loop_forced_stop_after_ceiling
    (llm : List ChatMsg → ModelOut) (toolCallback : ToolCall → String)
    (tools : List Tool) (prompt question : String) (previousMessages : List ChatMsg)
    (h : ∀ msgs, ∃ cs, llm msgs = ModelOut.toolCalls cs) :
    (llmWithToolsAux llm toolCallback loop_limit
        (ChatMsg.mk "system" prompt :: previousMessages ++ [ChatMsg.mk "user" question])
        [] 0).2.2 = 10 ∧
    forcedStopLog ∈
      (llmWithTools llm tools prompt question toolCallback loop_limit previousMessages).logs := by
  have hmain := llmWithToolsAux_no_final llm toolCallback h loop_limit
    (ChatMsg.mk "system" prompt :: previousMessages ++ [ChatMsg.mk "user" question]) [] 0
  exact ⟨by simpa [loop_limit] using hmain.1, by simpa [llmWithTools] using hmain.2⟩

/-- Witness for C3 at a concrete always-tool-calling model. -/
theorem loop_forced_stop_after_ceiling_witness :
    (llmWithToolsAux (fun _ => ModelOut.toolCalls []) (fun _ => "") loop_limit
        (ChatMsg.mk "system" DEFAULT_PROMPT :: [] ++ [ChatMsg.mk "user" "q"]) [] 0).2.2 = 10 ∧
    forcedStopLog ∈
      (llmWithTools (fun _ => ModelOut.toolCalls []) [tool_execute_query] DEFAULT_PROMPT "q"
        (fun _ => "") loop_limit []).logs :=
  loop_forced_stop_after_ceiling (fun _ => ModelOut.toolCalls []) (fun _ => "")
    [tool_execute_query] DEFAULT_PROMPT "q" [] (fun _ => ⟨[], rfl⟩)

/-! ## C5 — unknown thread id: error, message log untouched -/

/-- C5: posting a question with a thread id unknown to the store fails
with the thread-not-found error, and no message is persisted. -/
theorem post_unknown_thread_not_found (question tid : String)
    (llm : List ChatMsg → ModelOut) (toolCallback : ToolCall → String)
    (s : DBState) (h : threadExists s tid = false) :
    (postNeo4jQuestion question (some tid) llm toolCallback s).1.logs
        = ["Error: Thread with id " ++ tid ++ " not found"] ∧
    (postNeo4jQuestion question (some tid) llm toolCallback s).2.messages = s.messages := by
  simp [postNeo4jQuestion,
    postNeo4jQuestionOnThread_unknown question tid llm toolCallback s h]

/-- Witness for C5 on an empty store. -/
theorem post_unknown_thread_not_found_witness :
    (postNeo4jQuestion "q" (some "missing") (fun _ => ModelOut.finalText "a") (fun _ => "")
        ⟨[], [], 0⟩).1.logs = ["Error: Thread with id " ++ "missing" ++ " not found"] ∧
    (postNeo4jQuestion "q" (some "missing") (fun _ => ModelOut.finalText "a") (fun _ => "")
        ⟨[], [], 0⟩).2.messages = ([] : List DBMessage) :=
  post_unknown_thread_not_found "q" "missing" (fun _ => ModelOut.finalText "a") (fun _ => "")
    ⟨[], [], 0⟩ rfl

/-! ## C10 — failed ask does not touch the thread timestamp -/

/-- C10: when the save fails (unknown thread), the thread store — and with
it every `last_updated` timestamp — is left unchanged: the timestamp touch
only happens after a successful save. -/
theorem post_unknown_thread_threads_unchanged (question tid : String)
    (llm : List ChatMsg → ModelOut) (toolCallback : ToolCall → String)
    (s : DBState) (h : threadExists s tid = false) :
    (postNeo4jQuestion question (some tid) llm toolCallback s).2.threads = s.threads := by
  simp [postNeo4jQuestion,
    postNeo4jQuestionOnThread_unknown question tid llm toolCallback s h]

/-- Witness for C10: a store holding an unrelated thread keeps it, with
its timestamp, untouched. -/
theorem post_unknown_thread_threads_unchanged_witness :
    (postNeo4jQuestion "q" (some "nope") (fun _ => ModelOut.finalText "a") (fun _ => "")
        ⟨[⟨"other", 0, 0, "active"⟩], [], 1⟩).2.threads = [⟨"other", 0, 0, "active"⟩] :=
  post_unknown_thread_threads_unchanged "q" "nope" (fun _ => ModelOut.finalText "a")
    (fun _ => "") ⟨[⟨"other", 0, 0, "active"⟩], [], 1⟩ rfl

/-! ## C4 — persistence failure after the loop: logs are dropped -/

/-- Counterexample to C4 as stated: a run in which the loop makes tool
calls (its RunLog is non-empty) and then produces final text, but saving
fails; the returned result does not contain the loop's RunLog — only the
error line. -/
theorem post_save_failure_logs_lost_cex :
    (llmWithTools
        (fun msgs => if msgs.length ≤ 3
          then ModelOut.toolCalls [⟨⟨"execute_query", "cypher"⟩⟩]
          else ModelOut.finalText "ans")
        [tool_execute_query] DEFAULT_PROMPT "question" (fun _ => "rows") loop_limit
        []).response = "ans" ∧
    "Calling tool: execute_query" ∈
      (llmWithTools
        (fun msgs => if msgs.length ≤ 3
          then ModelOut.toolCalls [⟨⟨"execute_query", "cypher"⟩⟩]
          else ModelOut.finalText "ans")
        [tool_execute_query] DEFAULT_PROMPT "question" (fun _ => "rows") loop_limit
        []).logs ∧
    "Calling tool: execute_query" ∉
      (postNeo4jQuestion "question" (some "missing")
        (fun msgs => if msgs.length ≤ 3
          then ModelOut.toolCalls [⟨⟨"execute_query", "cypher"⟩⟩]
          else ModelOut.finalText "ans")
        (fun _ => "rows") ⟨[], [], 0⟩).1.logs := by
  decide

/-- C4 (amended): when the persistence step fails after the loop ran, the
error is surfaced in the returned result, but the result carries only the
error line — the RunLog accumulated by the loop is discarded, and the
response text is reset to empty. -/
theorem post_save_failure_only_error_log (question tid : String)
    (llm : List ChatMsg → ModelOut) (toolCallback : ToolCall → String)
    (s : DBState) (h : threadExists s tid = false) :
    (postNeo4jQuestion question (some tid) llm toolCallback s).1 =
      { response := "", logs := ["Error: Thread with id " ++ tid ++ " not found"],
        thread_id := tid } := by
  simp [postNeo4jQuestion,
    postNeo4jQuestionOnThread_unknown question tid llm toolCallback s h]

/-- Witness for the amended C4. -/
theorem post_save_failure_only_error_log_witness :
    (postNeo4jQuestion "q" (some "ghost") (fun _ => ModelOut.finalText "a") (fun _ => "")
        ⟨[], [], 5⟩).1 =
      { response := "", logs := ["Error: Thread with id " ++ "ghost" ++ " not found"],
        thread_id := "ghost" } :=
  post_save_failure_only_error_log "q" "ghost" (fun _ => ModelOut.finalText "a") (fun _ => "")
    ⟨[], [], 5⟩ rfl

/-! ## C7 — query failure becomes tool-result text -/

/-- C7: a query-execution failure inside the tool call is converted into
an error string returned as the tool result — both `executeCustomQuery`
and the tool boundary `executeToolCall` return text rather than
propagating the failure out of the tool boundary. -/
theorem query_failure_becomes_text (string_args : String) (toolCall : ToolCall)
    (hname : toolCall.function.name = "execute_query") :
    executeCustomQuery string_args none = "Error executing query." ∧
    executeToolCall toolCall none = "Error executing query." := by
  refine ⟨rfl, ?_⟩
  simp [executeToolCall, hname, executeCustomQuery]

/-- Witness for C7 at the registered tool name. -/
theorem query_failure_becomes_text_witness :
    executeCustomQuery "cypher" none = "Error executing query." ∧
    executeToolCall ⟨⟨"execute_query", "cypher"⟩⟩ none = "Error executing query." :=
  query_failure_becomes_text "cypher" ⟨⟨"execute_query", "cypher"⟩⟩ rfl

/-! ## C8 — unknown tool names yield the empty result -/

/-- C8: dispatching a tool call whose name is not `execute_query` returns
the empty string, regardless of the store, instead of failing. -/
theorem unknown_tool_returns_empty (toolCall : ToolCall) (response : Option (List Rec))
    (hname : toolCall.function.name ≠ "execute_query") :
    executeToolCall toolCall response = "" := by
  simp [executeToolCall, hname]

/-- Witness for C8 at a made-up tool name. -/
theorem unknown_tool_returns_empty_witness :
    executeToolCall ⟨⟨"delete_everything", "x"⟩⟩ (some [[("k", some "v")]]) = "" :=
  unknown_tool_returns_empty ⟨⟨"delete_everything", "x"⟩⟩ (some [[("k", some "v")]])
    (by decide)

/-! ## C2 — shape of the query tool's rendering -/

theorem executeCustomQuery_foldl (records : List Rec) :
    ∀ acc : String,
      records.foldl
        (fun acc record =>
          let current := recordToString record
          if current = "" then acc else acc ++ current ++ "\n") acc
      = acc ++ concatStrings
          (((records.map recordToString).filter fun l => l ≠ "").map fun l => l ++ "\n") := by
  induction records with
  | nil => intro acc; simp [concatStrings, String.append_empty]
  | cons r rs ih =>
    intro acc
    by_cases hr : recordToString r = ""
    · simp only [List.foldl_cons, List.map_cons, List.filter_cons, hr]
      simpa [hr] using ih acc
    · simp only [List.foldl_cons, List.map_cons, List.filter_cons, hr, ite_false]
      rw [ih (acc ++ recordToString r ++ "\n")]
      simp [hr, concatStrings, String.append_assoc]

theorem concatStrings_terminated_eq_empty_iff (lines : List String) :
    concatStrings (lines.map fun l => l ++ "\n") = "" ↔ lines = [] := by
  cases lines with
  | nil => simp [concatStrings]
  | cons l ls =>
    simp only [List.map_cons, concatStrings]
    constructor
    · intro h
      exfalso
      refine string_ne_empty_of_data_ne _ ?_ h
      simp [String.data_append]
    · intro h
      exact absurd h (List.cons_ne_nil l ls)

/-- Counterexample to C2 as stated: already for a single one-column row
the tool output carries a trailing newline, so it is not the
newline-join of the row lines that the claim (and `renderAsTextSpec`,
which follows the claim's words) prescribes. -/
theorem executeCustomQuery_trailing_newline_cex :
    executeCustomQuery "cypher" (some [[("k", some "v")]]) = "k: v\n" ∧
    renderAsTextSpec [[("k", some "v")]] = "k: v" ∧
    executeCustomQuery "cypher" (some [[("k", some "v")]]) ≠
      renderAsTextSpec [[("k", some "v")]] := by
  decide

/-- C2 (amended): each row with at least one non-null column is rendered
as its `key: value` columns joined by `", "` and is terminated (not
joined) by a newline; rows whose rendering is empty are skipped; if no
row produces a line — in particular for an empty result set — the output
is exactly the sentinel `"Query returned no results."`. -/
theorem executeCustomQuery_shape (string_args : String) (records : List Rec) :
    executeCustomQuery string_args (some records) =
      if ((records.map recordToString).filter fun l => l ≠ "") = []
      then "Query returned no results."
      else concatStrings
        (((records.map recordToString).filter fun l => l ≠ "").map fun l => l ++ "\n") := by
  show (let result := records.foldl _ "";
        if result = "" then "Query returned no results." else result) = _
  rw [executeCustomQuery_foldl records ""]
  rw [String.empty_append]
  by_cases hl : ((records.map recordToString).filter fun l => l ≠ "") = []
  · rw [if_pos hl, if_pos]
    rw [(concatStrings_terminated_eq_empty_iff _).mpr hl]
  · rw [if_neg hl, if_neg]
    intro h
    exact hl ((concatStrings_terminated_eq_empty_iff _).mp h)

/-! ## C6 — a successful ask appends one user/assistant pair, then touches -/

theorem find_update_list (tid : String) (c : Nat) :
    ∀ l : List Thread, (l.any fun t => t.id = tid) = true →
      ((l.map fun t => if t.id = tid then { t with last_updated := c } else t).find?
          fun t => t.id = tid).map (fun t => t.last_updated) = some c
  | [], h => by simp at h
  | t :: l', h => by
    by_cases ht : t.id = tid
    · simp [List.find?, ht]
    · have h' : (l'.any fun t => t.id = tid) = true := by
        simpa [List.any_cons, ht] using h
      simpa [List.find?, ht] using find_update_list tid c l' h'

theorem threadLastUpdated_update (s : DBState) (tid : String)
    (h : threadExists s tid = true) :
    threadLastUpdated (updateThreadTimestamp s tid) tid = some s.clock :=
  find_update_list tid s.clock s.threads h

theorem postNeo4jQuestionOnThread_success (question tid : String)
    (llm : List ChatMsg → ModelOut) (toolCallback : ToolCall → String) (s : DBState)
    (h : threadExists s tid = true) :
    postNeo4jQuestionOnThread question tid llm toolCallback s =
      ({ response := (llmWithTools llm [tool_execute_query] DEFAULT_PROMPT question
            toolCallback loop_limit (getThreadMessages s tid).1).response,
         logs := (llmWithTools llm [tool_execute_query] DEFAULT_PROMPT question
            toolCallback loop_limit (getThreadMessages s tid).1).logs,
         thread_id := tid },
       updateThreadTimestamp
         { s with
            messages := s.messages ++
              [⟨tid, "user", question, s.clock + 1 + 1⟩,
               ⟨tid, "assistant",
                 (llmWithTools llm [tool_execute_query] DEFAULT_PROMPT question
                   toolCallback loop_limit (getThreadMessages s tid).1).response,
                 s.clock + 1 + 1⟩]
            clock := s.clock + 1 + 1 + 1 } tid) := by
  have h1 : threadExists { s with clock := s.clock + 1 } tid = true := h
  simp [postNeo4jQuestionOnThread, getThreadMessages, saveMessages, h1]

/-- C6: a successful `postNeo4jQuestion` (fresh thread, or an existing
thread id) appends exactly one user message (the question) and one
assistant message (the answer) to the message store — nothing else — and
only afterwards touches the thread's `last_updated`: the touch instant
`tu` is strictly later than the shared stamp `ts` of the two appended
messages. -/
theorem post_success_two_messages_then_touch (question : String)
    (thread_id : Option String) (llm : List ChatMsg → ModelOut)
    (toolCallback : ToolCall → String) (s : DBState)
    (h : match thread_id with
         | none => True
         | some tid => threadExists s tid = true) :
    ∃ ts tu,
      (postNeo4jQuestion question thread_id llm toolCallback s).2.messages =
        s.messages ++
          [⟨(postNeo4jQuestion question thread_id llm toolCallback s).1.thread_id,
             "user", question, ts⟩,
           ⟨(postNeo4jQuestion question thread_id llm toolCallback s).1.thread_id,
             "assistant",
             (postNeo4jQuestion question thread_id llm toolCallback s).1.response, ts⟩] ∧
      ts < tu ∧
      threadLastUpdated (postNeo4jQuestion question thread_id llm toolCallback s).2
        (postNeo4jQuestion question thread_id llm toolCallback s).1.thread_id = some tu := by
  match thread_id with
  | some tid =>
    have hpost : postNeo4jQuestion question (some tid) llm toolCallback s =
        postNeo4jQuestionOnThread question tid llm toolCallback s := rfl
    rw [hpost, postNeo4jQuestionOnThread_success question tid llm toolCallback s h]
    refine ⟨s.clock + 1 + 1, s.clock + 1 + 1 + 1, ?_, by omega, ?_⟩
    · simp [updateThreadTimestamp]
    · exact threadLastUpdated_update _ tid h
  | none =>
    have hpost : postNeo4jQuestion question none llm toolCallback s =
        postNeo4jQuestionOnThread question (freshId s) llm toolCallback (createThread s).2 :=
      rfl
    have hex : threadExists (createThread s).2 (freshId s) = true := by
      simp [createThread, threadExists, List.any_append]
    rw [hpost,
      postNeo4jQuestionOnThread_success question (freshId s) llm toolCallback
        (createThread s).2 hex]
    refine ⟨(createThread s).2.clock + 1 + 1, (createThread s).2.clock + 1 + 1 + 1, ?_,
      by omega, ?_⟩
    · simp [updateThreadTimestamp, createThread]
    · exact threadLastUpdated_update _ (freshId s) hex

/-- Witness for C6 on a one-thread store. -/
theorem post_success_two_messages_then_touch_witness :
    ∃ ts tu,
      (postNeo4jQuestion "q" (some "t1") (fun _ => ModelOut.finalText "a") (fun _ => "")
          ⟨[⟨"t1", 0, 0, "active"⟩], [], 1⟩).2.messages =
        [] ++
          [⟨(postNeo4jQuestion "q" (some "t1") (fun _ => ModelOut.finalText "a") (fun _ => "")
              ⟨[⟨"t1", 0, 0, "active"⟩], [], 1⟩).1.thread_id, "user", "q", ts⟩,
           ⟨(postNeo4jQuestion "q" (some "t1") (fun _ => ModelOut.finalText "a") (fun _ => "")
              ⟨[⟨"t1", 0, 0, "active"⟩], [], 1⟩).1.thread_id, "assistant",
             (postNeo4jQuestion "q" (some "t1") (fun _ => ModelOut.finalText "a") (fun _ => "")
              ⟨[⟨"t1", 0, 0, "active"⟩], [], 1⟩).1.response, ts⟩] ∧
      ts < tu ∧
      threadLastUpdated (postNeo4jQuestion "q" (some "t1") (fun _ => ModelOut.finalText "a")
          (fun _ => "") ⟨[⟨"t1", 0, 0, "active"⟩], [], 1⟩).2
        (postNeo4jQuestion "q" (some "t1") (fun _ => ModelOut.finalText "a") (fun _ => "")
          ⟨[⟨"t1", 0, 0, "active"⟩], [], 1⟩).1.thread_id = some tu :=
  post_success_two_messages_then_touch "q" (some "t1") (fun _ => ModelOut.finalText "a")
    (fun _ => "") ⟨[⟨"t1", 0, 0, "active"⟩], [], 1⟩ rfl

/-! ## C1 — ordering of the persisted history -/

theorem any_id_update (tidTouch tid : String) (c : Nat) :
    ∀ l : List Thread,
      ((l.map fun t => if t.id = tidTouch then { t with last_updated := c } else t).any
          fun t => t.id = tid)
        = (l.any fun t => t.id = tid)
  | [] => rfl
  | t :: l' => by
    by_cases ht : t.id = tidTouch
    · simp [ht, any_id_update tidTouch tid c l']
    · simp [ht, any_id_update tidTouch tid c l']

theorem threadExists_update (s : DBState) (tidTouch tid : String) :
    threadExists (updateThreadTimestamp s tidTouch) tid = threadExists s tid :=
  any_id_update tidTouch tid s.clock s.threads

theorem PairsShape.append_pair {tid : String} {l : List DBMessage}
    (hs : PairsShape tid l) (q a : String) (t : Nat)
    (hlt : ∀ m ∈ l, m.datetime < t) :
    PairsShape tid (l ++ [⟨tid, "user", q, t⟩, ⟨tid, "assistant", a, t⟩]) := by
  induction hs with
  | nil => exact PairsShape.cons q a t [] (by simp) PairsShape.nil
  | cons q0 a0 t0 rest hrest hshape ih =>
    have hu : t0 < t := by
      have := hlt ⟨tid, "user", q0, t0⟩ (by simp)
      simpa using this
    have hm : ∀ m ∈ rest ++ [(⟨tid, "user", q, t⟩ : DBMessage), ⟨tid, "assistant", a, t⟩],
        t0 < m.datetime := by
      intro m hmem
      rcases List.mem_append.mp hmem with h1 | h2
      · exact hrest m h1
      · have hdt : m.datetime = t := by
          simp at h2
          rcases h2 with rfl | rfl <;> rfl
        rw [hdt]
        exact hu
    have hrest' : ∀ m ∈ rest, m.datetime < t := fun m hmem =>
      hlt m (by simp [hmem])
    exact PairsShape.cons q0 a0 t0 _ hm (ih hrest')

theorem PairsShape.sorted {tid : String} {l : List DBMessage}
    (hs : PairsShape tid l) : List.Pairwise byDatetime l := by
  induction hs with
  | nil => exact List.Pairwise.nil
  | cons q a t rest hrest hshape ih =>
    refine List.pairwise_cons.mpr ⟨?_, List.pairwise_cons.mpr ⟨?_, ih⟩⟩
    · intro m hm
      rcases List.mem_cons.mp hm with rfl | hm'
      · exact le_refl t
      · exact le_of_lt (hrest m hm')
    · intro m hm
      exact le_of_lt (hrest m hm)

theorem PairsShape.pairs {tid : String} {l : List DBMessage}
    (hs : PairsShape tid l) : isUserAssistantPairs l = true := by
  induction hs with
  | nil => rfl
  | cons q a t rest hrest hshape ih => simpa [isUserAssistantPairs] using ih

theorem chat_pairs_of_pairs :
    ∀ l : List DBMessage, isUserAssistantPairs l = true →
      isChatUserAssistantPairs
        (l.map fun m =>
          if m.role = "assistant" then ChatMsg.mk "assistant" m.content
          else ChatMsg.mk "user" m.content) = true
  | [], _ => rfl
  | [u], h => by simp [isUserAssistantPairs] at h
  | u :: a :: rest, h => by
    simp only [isUserAssistantPairs, Bool.and_eq_true, decide_eq_true_eq] at h
    obtain ⟨⟨hu, ha⟩, hrest⟩ := h
    simp only [List.map_cons, hu, ha, isChatUserAssistantPairs]
    simp only [if_neg (by decide : ¬ ("user" : String) = "assistant"),
      if_pos (rfl : ("assistant" : String) = "assistant")]
    simpa [isChatUserAssistantPairs] using chat_pairs_of_pairs rest hrest

theorem C1Inv_step (tid : String) (st : ExchangeStep) (s : DBState)
    (h : C1Inv tid s) :
    C1Inv tid (postNeo4jQuestion st.question (some tid) st.llm st.toolCallback s).2 := by
  obtain ⟨hex, hshape, hbound⟩ := h
  have hpost : postNeo4jQuestion st.question (some tid) st.llm st.toolCallback s =
      postNeo4jQuestionOnThread st.question tid st.llm st.toolCallback s := rfl
  rw [hpost, postNeo4jQuestionOnThread_success st.question tid st.llm st.toolCallback s hex]
  set ans := (llmWithTools st.llm [tool_execute_query] DEFAULT_PROMPT st.question
    st.toolCallback loop_limit (getThreadMessages s tid).1).response with hans
  have hmsgs : threadMsgs
      (updateThreadTimestamp
        { s with
            messages := s.messages ++
              [⟨tid, "user", st.question, s.clock + 1 + 1⟩,
               ⟨tid, "assistant", ans, s.clock + 1 + 1⟩]
            clock := s.clock + 1 + 1 + 1 } tid) tid =
      threadMsgs s tid ++
        [⟨tid, "user", st.question, s.clock + 1 + 1⟩,
         ⟨tid, "assistant", ans, s.clock + 1 + 1⟩] := by
    simp [threadMsgs, updateThreadTimestamp, List.filter_append]
  refine ⟨?_, ?_, ?_⟩
  · rw [threadExists_update]
    exact hex
  · rw [hmsgs]
    exact hshape.append_pair st.question ans (s.clock + 1 + 1)
      (fun m hm => Nat.lt_of_lt_of_le (hbound m hm) (by omega))
  · rw [hmsgs]
    intro m hm
    show m.datetime < s.clock + 1 + 1 + 1 + 1
    rcases List.mem_append.mp hm with h1 | h2
    · have := hbound m h1
      omega
    · have hdt : m.datetime = s.clock + 1 + 1 := by
        simp at h2
        rcases h2 with rfl | rfl <;> rfl
      omega

theorem C1Inv_run (tid : String) :
    ∀ (steps : List ExchangeStep) (s : DBState), C1Inv tid s →
      C1Inv tid (runExchanges tid steps s)
  | [], _, h => h
  | st :: rest, s, h =>
    C1Inv_run tid rest
      (postNeo4jQuestion st.question (some tid) st.llm st.toolCallback s).2
      (C1Inv_step tid st s h)

/-- Counterexample to C1 as stated: after one successful exchange the
thread holds two messages, but the assistant message does not sort
strictly after the user message appended just before it — the one
`CREATE` statement stamps both with the same `datetime()` instant and no
sequence counter exists to break the tie. -/
theorem history_strict_order_cex :
    (threadMsgs
        (postNeo4jQuestion "q1" (some "t1") (fun _ => ModelOut.finalText "ans") (fun _ => "")
          ⟨[⟨"t1", 0, 0, "active"⟩], [], 1⟩).2 "t1").length = 2 ∧
    strictStamps
        (threadMsgs
          (postNeo4jQuestion "q1" (some "t1") (fun _ => ModelOut.finalText "ans") (fun _ => "")
            ⟨[⟨"t1", 0, 0, "active"⟩], [], 1⟩).2 "t1") = false := by
  decide

/-- C1 (amended): after any sequence of successful exchanges on one
thread, the stored history is already in non-decreasing `datetime` order
(so the `ORDER BY m.datetime` load returns it unchanged) and consists of
alternating user/assistant pairs starting with `user`; the two halves of
one exchange share a timestamp (only non-strict ordering holds, there is
no tie-breaking sequence counter), while distinct exchanges are strictly
ordered. -/
theorem history_sorted_alternating (tid : String) (steps : List ExchangeStep)
    (s0 : DBState) (hex : threadExists s0 tid = true)
    (hempty : threadMsgs s0 tid = []) :
    orderedThreadMsgs (runExchanges tid steps s0) tid
        = threadMsgs (runExchanges tid steps s0) tid ∧
    List.Sorted byDatetime (threadMsgs (runExchanges tid steps s0) tid) ∧
    isUserAssistantPairs (threadMsgs (runExchanges tid steps s0) tid) = true ∧
    isChatUserAssistantPairs (getThreadMessages (runExchanges tid steps s0) tid).1 = true := by
  have hinv : C1Inv tid (runExchanges tid steps s0) := by
    refine C1Inv_run tid steps s0 ⟨hex, ?_, ?_⟩
    · rw [hempty]
      exact PairsShape.nil
    · rw [hempty]
      intro m hm
      cases hm
  obtain ⟨-, hshape, -⟩ := hinv
  have hsorted : List.Sorted byDatetime (threadMsgs (runExchanges tid steps s0) tid) :=
    hshape.sorted
  have heq : orderedThreadMsgs (runExchanges tid steps s0) tid
      = threadMsgs (runExchanges tid steps s0) tid :=
    List.Sorted.insertionSort_eq hsorted
  refine ⟨heq, hsorted, hshape.pairs, ?_⟩
  show isChatUserAssistantPairs
    ((orderedThreadMsgs (runExchanges tid steps s0) tid).map _) = true
  rw [heq]
  exact chat_pairs_of_pairs _ hshape.pairs

/-- Witness for the amended C1: two exchanges on a concrete thread. -/
theorem history_sorted_alternating_witness :
    orderedThreadMsgs
        (runExchanges "t1"
          [⟨"q1", fun _ => ModelOut.finalText "a1", fun _ => ""⟩,
           ⟨"q2", fun _ => ModelOut.finalText "a2", fun _ => ""⟩]
          ⟨[⟨"t1", 0, 0, "active"⟩], [], 1⟩) "t1"
      = threadMsgs
          (runExchanges "t1"
            [⟨"q1", fun _ => ModelOut.finalText "a1", fun _ => ""⟩,
             ⟨"q2", fun _ => ModelOut.finalText "a2", fun _ => ""⟩]
            ⟨[⟨"t1", 0, 0, "active"⟩], [], 1⟩) "t1" ∧
    List.Sorted byDatetime
      (threadMsgs
        (runExchanges "t1"
          [⟨"q1", fun _ => ModelOut.finalText "a1", fun _ => ""⟩,
           ⟨"q2", fun _ => ModelOut.finalText "a2", fun _ => ""⟩]
          ⟨[⟨"t1", 0, 0, "active"⟩], [], 1⟩) "t1") ∧
    isUserAssistantPairs
        (threadMsgs
          (runExchanges "t1"
            [⟨"q1", fun _ => ModelOut.finalText "a1", fun _ => ""⟩,
             ⟨"q2", fun _ => ModelOut.finalText "a2", fun _ => ""⟩]
            ⟨[⟨"t1", 0, 0, "active"⟩], [], 1⟩) "t1") = true ∧
    isChatUserAssistantPairs
        (getThreadMessages
          (runExchanges "t1"
            [⟨"q1", fun _ => ModelOut.finalText "a1", fun _ => ""⟩,
             ⟨"q2", fun _ => ModelOut.finalText "a2", fun _ => ""⟩]
            ⟨[⟨"t1", 0, 0, "active"⟩], [], 1⟩) "t1").1 = true :=
  history_sorted_alternating "t1"
    [⟨"q1", fun _ => ModelOut.finalText "a1", fun _ => ""⟩,
     ⟨"q2", fun _ => ModelOut.finalText "a2", fun _ => ""⟩]
    ⟨[⟨"t1", 0, 0, "active"⟩], [], 1⟩ rfl rfl

/-! ## C9 — round-tripping rendered rows -/

theorem splitPair_of_no_pair (a b : Char) :
    ∀ l, hasPair a b l = false → splitPair a b l = [l]
  | [], _ => rfl
  | [_], _ => rfl
  | c :: d :: rest, h => by
    have h' : (if c = a ∧ d = b then true else hasPair a b (d :: rest)) = false := h
    by_cases hcd : c = a ∧ d = b
    · rw [if_pos hcd] at h'
      cases h'
    · rw [if_neg hcd] at h'
      show (if c = a ∧ d = b then [] :: splitPair a b rest
            else match splitPair a b (d :: rest) with
              | [] => [[c]]
              | s :: ss => (c :: s) :: ss) = [c :: d :: rest]
      rw [if_neg hcd, splitPair_of_no_pair a b (d :: rest) h']

theorem splitPair_sep_head (a b : Char) (y : List Char) :
    splitPair a b (a :: b :: y) = [] :: splitPair a b y := by
  show (if a = a ∧ b = b then [] :: splitPair a b y
        else match splitPair a b (b :: y) with
          | [] => [[a]]
          | s :: ss => (a :: s) :: ss) = [] :: splitPair a b y
  rw [if_pos ⟨rfl, rfl⟩]

theorem splitPair_append (a b : Char) (hab : a ≠ b) (y : List Char) :
    ∀ x, hasPair a b x = false → splitPair a b (x ++ a :: b :: y) = x :: splitPair a b y
  | [], _ => by
    simpa using splitPair_sep_head a b y
  | [c], _ => by
    show (if c = a ∧ a = b then [] :: splitPair a b (b :: y)
          else match splitPair a b (a :: b :: y) with
            | [] => [[c]]
            | s :: ss => (c :: s) :: ss) = [c] :: splitPair a b y
    rw [if_neg (fun hk => hab hk.2), splitPair_sep_head a b y]
  | c :: d :: x', h => by
    have h' : (if c = a ∧ d = b then true else hasPair a b (d :: x')) = false := h
    by_cases hcd : c = a ∧ d = b
    · rw [if_pos hcd] at h'
      cases h'
    · rw [if_neg hcd] at h'
      have hrec := splitPair_append a b hab y (d :: x') h'
      show (if c = a ∧ d = b then [] :: splitPair a b (x' ++ a :: b :: y)
            else match splitPair a b (d :: x' ++ a :: b :: y) with
              | [] => [[c]]
              | s :: ss => (c :: s) :: ss) = (c :: d :: x') :: splitPair a b y
      rw [if_neg hcd]
      rw [hrec]

theorem breakPair_sep_head (a b : Char) (v : List Char) :
    breakPair a b (a :: b :: v) = some ([], v) := by
  show (if a = a ∧ b = b then some ([], v) else _) = some ([], v)
  rw [if_pos ⟨rfl, rfl⟩]

theorem breakPair_append (a b : Char) (hab : a ≠ b) (v : List Char) :
    ∀ k, hasPair a b k = false → breakPair a b (k ++ a :: b :: v) = some (k, v)
  | [], _ => by
    simpa using breakPair_sep_head a b v
  | [c], _ => by
    show (if c = a ∧ a = b then some ([], b :: v)
          else match breakPair a b (a :: b :: v) with
            | none => none
            | some (pre, post) => some (c :: pre, post)) = some ([c], v)
    rw [if_neg (fun hk => hab hk.2), breakPair_sep_head a b v]
  | c :: d :: k', h => by
    have h' : (if c = a ∧ d = b then true else hasPair a b (d :: k')) = false := h
    by_cases hcd : c = a ∧ d = b
    · rw [if_pos hcd] at h'
      cases h'
    · rw [if_neg hcd] at h'
      have hrec := breakPair_append a b hab v (d :: k') h'
      show (if c = a ∧ d = b then some ([], k' ++ a :: b :: v)
            else match breakPair a b (d :: k' ++ a :: b :: v) with
              | none => none
              | some (pre, post) => some (c :: pre, post)) = some (c :: d :: k', v)
      rw [if_neg hcd]
      rw [hrec]

theorem hasPair_sep_head (a b m1 m2 : Char) (hmm : ¬(m1 = a ∧ m2 = b)) (hm2 : m2 ≠ a)
    (v : List Char) (hv : hasPair a b v = false) :
    hasPair a b (m1 :: m2 :: v) = false := by
  have hmv : hasPair a b (m2 :: v) = false := by
    cases v with
    | nil => rfl
    | cons w v' =>
      show (if m2 = a ∧ w = b then true else hasPair a b (w :: v')) = false
      rw [if_neg (fun hk => hm2 hk.1)]
      exact hv
  show (if m1 = a ∧ m2 = b then true else hasPair a b (m2 :: v)) = false
  rw [if_neg hmm]
  exact hmv

theorem hasPair_glue (a b m1 m2 : Char) (hm1 : m1 ≠ b) (hmm : ¬(m1 = a ∧ m2 = b))
    (hm2 : m2 ≠ a) (v : List Char) (hv : hasPair a b v = false) :
    ∀ k, hasPair a b k = false → hasPair a b (k ++ m1 :: m2 :: v) = false
  | [], _ => by
    simpa using hasPair_sep_head a b m1 m2 hmm hm2 v hv
  | [c], _ => by
    show (if c = a ∧ m1 = b then true else hasPair a b (m1 :: m2 :: v)) = false
    rw [if_neg (fun hk => hm1 hk.2)]
    exact hasPair_sep_head a b m1 m2 hmm hm2 v hv
  | c :: d :: k', h => by
    have h' : (if c = a ∧ d = b then true else hasPair a b (d :: k')) = false := h
    by_cases hcd : c = a ∧ d = b
    · rw [if_pos hcd] at h'
      cases h'
    · rw [if_neg hcd] at h'
      have hrec := hasPair_glue a b m1 m2 hm1 hmm hm2 v hv (d :: k') h'
      show (if c = a ∧ d = b then true
            else hasPair a b (d :: (k' ++ m1 :: m2 :: v))) = false
      rw [if_neg hcd]
      simpa using hrec

theorem entry_data (k v : String) :
    (k ++ ": " ++ v).data = k.data ++ ':' :: ' ' :: v.data := by
  have h1 : (": " : String).data = [':', ' '] := rfl
  simp [String.data_append, h1]

theorem hasPair_comma_entry (k v : String)
    (hk : hasPair ',' ' ' k.data = false) (hv : hasPair ',' ' ' v.data = false) :
    hasPair ',' ' ' (k.data ++ ':' :: ' ' :: v.data) = false :=
  hasPair_glue ',' ' ' ':' ' ' (by decide) (by intro hk2; exact absurd hk2.1 (by decide))
    (by decide) v.data hv k.data hk

theorem parseEntry_entry (k v : String) (hk : hasPair ':' ' ' k.data = false) :
    parseEntry (k.data ++ ':' :: ' ' :: v.data) = some (k, v) := by
  unfold parseEntry
  rw [breakPair_append ':' ' ' (by decide) v.data k.data hk]

theorem joinComma_cons_cons (x y : String) (ys : List String) :
    joinComma (x :: y :: ys) = x ++ ", " ++ joinComma (y :: ys) := rfl

theorem parseLine_entries :
    ∀ ps : List (String × String), ps ≠ [] →
      (∀ p ∈ ps, hasPair ',' ' ' p.1.data = false ∧ hasPair ':' ' ' p.1.data = false ∧
        hasPair ',' ' ' p.2.data = false) →
      parseLine (joinComma (ps.map fun p => p.1 ++ ": " ++ p.2)).data = some ps
  | [], h, _ => absurd rfl h
  | [p], _, hc => by
    obtain ⟨hc1, hc2, hc3⟩ := hc p (by simp)
    show parseEntries (splitPair ',' ' ' ((p.1 ++ ": " ++ p.2)).data) = some [p]
    rw [entry_data]
    rw [splitPair_of_no_pair ',' ' ' _ (hasPair_comma_entry p.1 p.2 hc1 hc3)]
    show (match parseEntry (p.1.data ++ ':' :: ' ' :: p.2.data), parseEntries [] with
          | some q, some qs => some (q :: qs)
          | _, _ => none) = some [p]
    rw [parseEntry_entry p.1 p.2 hc2]
    rfl
  | p :: p' :: ps', _, hc => by
    obtain ⟨hc1, hc2, hc3⟩ := hc p (by simp)
    have hrest : ∀ q ∈ p' :: ps', hasPair ',' ' ' q.1.data = false ∧
        hasPair ':' ' ' q.1.data = false ∧ hasPair ',' ' ' q.2.data = false :=
      fun q hq => hc q (by simp [hq])
    have ih := parseLine_entries (p' :: ps') (by simp) hrest
    show parseEntries (splitPair ',' ' '
      ((p.1 ++ ": " ++ p.2) ++ ", " ++ joinComma ((p' :: ps').map fun q => q.1 ++ ": " ++ q.2)).data)
        = some (p :: p' :: ps')
    have hdata : ((p.1 ++ ": " ++ p.2) ++ ", " ++
        joinComma ((p' :: ps').map fun q => q.1 ++ ": " ++ q.2)).data =
        (p.1.data ++ ':' :: ' ' :: p.2.data) ++ ',' :: ' ' ::
          (joinComma ((p' :: ps').map fun q => q.1 ++ ": " ++ q.2)).data := by
      have h1 : (", " : String).data = [',', ' '] := rfl
      simp [String.data_append, h1, entry_data]
    rw [hdata]
    rw [splitPair_append ',' ' ' (by decide) _ _ (hasPair_comma_entry p.1 p.2 hc1 hc3)]
    show (match parseEntry (p.1.data ++ ':' :: ' ' :: p.2.data),
            parseEntries (splitPair ',' ' '
              (joinComma ((p' :: ps').map fun q => q.1 ++ ": " ++ q.2)).data) with
          | some q, some qs => some (q :: qs)
          | _, _ => none) = some (p :: p' :: ps')
    rw [parseEntry_entry p.1 p.2 hc2]
    have ih' : parseEntries (splitPair ',' ' '
        (joinComma ((p' :: ps').map fun q => q.1 ++ ": " ++ q.2)).data) = some (p' :: ps') := ih
    rw [ih']

theorem noNL_entry (k v : String) (hk : '\n' ∉ k.data) (hv : '\n' ∉ v.data) :
    '\n' ∉ (k ++ ": " ++ v).data := by
  rw [entry_data]
  simp [List.mem_append, hk, hv]

theorem noNL_joinComma :
    ∀ xs : List String, (∀ x ∈ xs, '\n' ∉ x.data) → '\n' ∉ (joinComma xs).data
  | [], _ => by simp [joinComma]
  | [x], h => by simpa [joinComma] using h x (by simp)
  | x :: y :: xs, h => by
    rw [joinComma_cons_cons]
    have h1 := h x (by simp)
    have h2 := noNL_joinComma (y :: xs) fun z hz => h z (by simp [hz])
    have hsep : (", " : String).data = [',', ' '] := rfl
    simp [String.data_append, hsep, List.mem_append, h1, h2]

theorem splitOn_no_newline (l : List Char) (h : '\n' ∉ l) :
    l.splitOn '\n' = [l] := by
  have h2 : ∀ m ∈ [l], '\n' ∉ m := by
    intro m hm
    rw [List.mem_singleton.mp hm]
    exact h
  have h3 := List.splitOn_intercalate [l] '\n' h2 (by simp)
  simpa [List.intercalate] using h3

theorem filterMap_entries :
    ∀ r : Rec, (∀ kv ∈ r, ∃ v, kv.2 = some v) →
      r.filterMap (fun kv =>
        match kv.2 with
        | some v => some (kv.1 ++ ": " ++ v)
        | none => none) =
      (recPairs r).map fun p => p.1 ++ ": " ++ p.2
  | [], _ => rfl
  | kv :: r', h => by
    obtain ⟨v, hv⟩ := h kv (by simp)
    have ih := filterMap_entries r' fun q hq => h q (by simp [hq])
    rw [List.filterMap_cons]
    simp only [hv, recPairs, List.map_cons, Option.getD_some]
    rw [ih]
    rfl

theorem recordToString_allSome (r : Rec) (h : ∀ kv ∈ r, ∃ v, kv.2 = some v) :
    recordToString r = joinComma ((recPairs r).map fun p => p.1 ++ ": " ++ p.2) :=
  congrArg joinComma (filterMap_entries r h)

/-- Counterexample to C9 as stated: the value `"v"` is scalar, non-null
and comma-free — all the claim asks — yet the row does not round-trip,
because its key contains the `", "` column separator: the re-split cuts
the rendered line `a, b: v` inside the key. -/
theorem parseRendered_comma_key_cex :
    hasPair ',' ' ' ("v" : String).data = false ∧
    parseRendered (recordToString [("a, b", some "v")]) = none ∧
    parseRendered (recordToString [("a, b", some "v")]) ≠
      some [recPairs [("a, b", some "v")]] := by
  decide

/-- C9 (amended): a non-empty row whose values are all non-null and free
of the `", "` separator and of newline, and whose keys are additionally
free of the `", "` and `": "` separators and of newline, round-trips: the
rendered text, re-split by the documented newline/`", "`/`": "`
convention, recovers exactly the original key/value pairs. -/
theorem parseRendered_roundTrip (r : Rec) (hne : r ≠ [])
    (hval : ∀ kv ∈ r, ∃ v, kv.2 = some v ∧ hasPair ',' ' ' v.data = false ∧ '\n' ∉ v.data)
    (hkey : ∀ kv ∈ r, hasPair ',' ' ' kv.1.data = false ∧ hasPair ':' ' ' kv.1.data = false ∧
      '\n' ∉ kv.1.data) :
    parseRendered (recordToString r) = some [recPairs r] := by
  have hv' : ∀ kv ∈ r, ∃ v, kv.2 = some v := by
    intro kv hkv
    obtain ⟨v, hv, -, -⟩ := hval kv hkv
    exact ⟨v, hv⟩
  rw [recordToString_allSome r hv']
  have hpairs : ∀ p ∈ recPairs r, hasPair ',' ' ' p.1.data = false ∧
      hasPair ':' ' ' p.1.data = false ∧ hasPair ',' ' ' p.2.data = false := by
    intro p hp
    rw [recPairs] at hp
    obtain ⟨kv, hkv, rfl⟩ := List.mem_map.mp hp
    obtain ⟨v, hv, hv2, hv3⟩ := hval kv hkv
    obtain ⟨h1, h2, h3⟩ := hkey kv hkv
    exact ⟨h1, h2, by simp [hv, hv2]⟩
  have hnl : '\n' ∉ (joinComma ((recPairs r).map fun p => p.1 ++ ": " ++ p.2)).data := by
    apply noNL_joinComma
    intro x hx
    obtain ⟨p, hp, rfl⟩ := List.mem_map.mp hx
    rw [recPairs] at hp
    obtain ⟨kv, hkv, rfl⟩ := List.mem_map.mp hp
    obtain ⟨v, hv, hv2, hv3⟩ := hval kv hkv
    obtain ⟨-, -, hk3⟩ := hkey kv hkv
    exact noNL_entry _ _ hk3 (by simpa [hv] using hv3)
  have hne' : recPairs r ≠ [] := by simp [recPairs, hne]
  have hline := parseLine_entries (recPairs r) hne' hpairs
  unfold parseRendered
  rw [splitOn_no_newline _ hnl]
  show (match parseLine (joinComma ((recPairs r).map fun p => p.1 ++ ": " ++ p.2)).data,
          parseLines [] with
        | some q, some qs => some (q :: qs)
        | _, _ => none) = some [recPairs r]
  rw [hline]
  rfl

/-- Witness for the amended C9 at a concrete two-column row. -/
theorem parseRendered_roundTrip_witness :
    parseRendered (recordToString [("name", some "Pasta"), ("cost", some "12")]) =
      some [recPairs [("name", some "Pasta"), ("cost", some "12")]] :=
  parseRendered_roundTrip [("name", some "Pasta"), ("cost", some "12")]
    (by decide)
    (by
      intro kv hkv
      simp only [List.mem_cons, List.not_mem_nil, or_false] at hkv
      rcases hkv with rfl | rfl
      · exact ⟨"Pasta", rfl, by decide, by decide⟩
      · exact ⟨"12", rfl, by decide, by decide⟩)
    (by
      intro kv hkv
      simp only [List.mem_cons, List.not_mem_nil, or_false] at hkv
      rcases hkv with rfl | rfl
      · exact ⟨by decide, by decide, by decide⟩
      · exact ⟨by decide, by decide, by decide⟩)
